import Mathlib

/-
Verification of the relevance-ranking core of the yetifoam-response-generator
repository: text normalization (normalize_text), multi-scorer fusion and
threshold penalty (enhanced_fuzzy_search), token-set similarity
(token_set_similarity), the content quality scorer (calculate_quality_score),
the complete matcher engine (find_best_match_from_all) and the enhanced
matcher engine (find_best_response), and the CSV-integration duplicate
consolidation (integrate_csv_data).

Python strings are modelled as Lean Strings over their character lists;
character classes follow Python's ASCII behaviour (the corpus and queries are
ASCII).  Scores computed by the source in binary floating point are modelled
as exact rationals.  Calls into the external fuzzywuzzy library
(fuzz.token_set_ratio and friends) are not code of this repository; engines
that consume their results are parametrised over the scoring function.
-/

/-! ### Python string primitives -/

/-- ASCII model of Python str.lower for a single character: uppercase basic
latin letters are shifted by 32, everything else is unchanged. -/
def pyLowerChar (c : Char) : Char :=
  if 65 ≤ c.toNat ∧ c.toNat ≤ 90 then Char.ofNat (c.toNat + 32) else c

/-- Model of Python str.lower on a whole string. -/
def pyLower (s : String) : String :=
  String.mk (s.toList.map pyLowerChar)

/-- Characters matched by the regex class backslash-w in Python (ASCII):
letters, digits and underscore. -/
def isWordChar (c : Char) : Bool :=
  c.isAlphanum || c = '_'

/-- Characters matched by the regex class backslash-s in Python (ASCII):
space, tab, newline, carriage return, vertical tab, form feed. -/
def isSpaceChar (c : Char) : Bool :=
  c = ' ' || c = '\t' || c = '\n' || c = '\r' || c = '\x0b' || c = '\x0c'

/-- Digit characters 0-9. -/
def isDigitChar (c : Char) : Bool :=
  c.isDigit

/-- Helper for collapseWsL: the flag records whether the scanner is inside a
whitespace run whose single replacement space was already emitted. -/
def collapseWsGo : Bool → List Char → List Char
  | _, [] => []
  | true, c :: cs =>
    if isSpaceChar c then collapseWsGo true cs else c :: collapseWsGo false cs
  | false, c :: cs =>
    if isSpaceChar c then ' ' :: collapseWsGo true cs else c :: collapseWsGo false cs

/-- Model of re.sub with pattern backslash-s-plus and replacement a single
space: every maximal whitespace run becomes one space character. -/
def collapseWsL (l : List Char) : List Char :=
  collapseWsGo false l

/-- Trailing-whitespace removal, via reversal. -/
def dropTrailingWsL (l : List Char) : List Char :=
  (l.reverse.dropWhile isSpaceChar).reverse

/-- Model of Python str.strip(): drop leading and trailing whitespace. -/
def stripWsL (l : List Char) : List Char :=
  dropTrailingWsL (l.dropWhile isSpaceChar)

/-- Model of Python str.strip() on strings. -/
def pyStrip (s : String) : String :=
  String.mk (stripWsL s.toList)

/-- Helper for pySplit: accumulate the current word (reversed) while
scanning. -/
def splitWsGo : List Char → List Char → List String
  | [], acc => if acc.isEmpty then [] else [String.mk acc.reverse]
  | c :: cs, acc =>
    if isSpaceChar c then
      if acc.isEmpty then splitWsGo cs [] else String.mk acc.reverse :: splitWsGo cs []
    else splitWsGo cs (c :: acc)

/-- Model of Python str.split() with no argument: split on whitespace runs,
discarding empty pieces. -/
def pySplit (s : String) : List String :=
  splitWsGo s.toList []

/-- Substring test on character lists: true when needle occurs contiguously
inside hay (the empty needle always occurs). -/
def listContains : List Char → List Char → Bool
  | hay, needle =>
    if needle.isPrefixOf hay then true
    else match hay with
      | [] => false
      | _ :: t => listContains t needle

/-- Model of the Python expression needle in hay for strings. -/
def containsStr (hay needle : String) : Bool :=
  listContains hay.toList needle.toList

/-! ### Quality scorer, from calculate_quality_score in
yetifoam_enhanced_final_streamlit_app.py (lines 206-315).  All arithmetic in
that function is on small non-negative integers, so it is modelled in Nat. -/

/-- Technical vocabulary list from self.quality_keywords, key technical. -/
def qualityTechnical : List String :=
  ["spray foam", "yetifoam", "insulation", "r-value", "thermal",
   "polyurethane", "closed-cell", "open-cell", "foam", "vapour barrier",
   "air seal", "thermal resistance", "rigid", "dense", "substrate",
   "application", "curing"]

/-- Standards vocabulary list from self.quality_keywords, key standards. -/
def qualityStandards : List String :=
  ["AS 1530", "AS 3837", "AS 3000", "AS 3999", "AS 3660", "ASTM E96",
   "australian standard", "building code", "compliance", "class 2",
   "class 1", "certification", "bal", "bushfire attack level"]

/-- Professional vocabulary list from self.quality_keywords, key
professional. -/
def qualityProfessional : List String :=
  ["recommend", "professional", "experience", "quality", "certified",
   "installation", "assessment", "applicators", "installers", "calibrated",
   "trained", "site visit", "quote", "enquiry", "contact"]

/-- Location vocabulary list from self.quality_keywords, key locations. -/
def qualityLocations : List String :=
  ["victoria", "braeside", "melbourne", "tasmania", "australia",
   "victorian", "dandenong", "gippsland", "wodonga", "regional"]

/-- Accumulation loop shared by the four keyword scans: add the weight of
every keyword that occurs in the lowered text. -/
def sumHits (textLower : String) (kws : List String) (w : String → ℕ) : ℕ :=
  kws.foldl (fun acc kw => acc + (if containsStr textLower kw then w kw else 0)) 0

/-- Per-keyword weight of the technical scan: 4 for the high-value terms,
2 otherwise. -/
def techWeight (kw : String) : ℕ :=
  if kw ∈ ["r-value", "thermal resistance", "polyurethane", "closed-cell",
           "vapour barrier"] then 4 else 2

/-- Per-keyword weight of the standards scan: 8 for entries containing the
text as-space or australian standard, 5 for astm or compliance, 3 else. -/
def stdWeight (kw : String) : ℕ :=
  if containsStr kw "as " || containsStr kw "australian standard" then 8
  else if containsStr kw "astm" || containsStr kw "compliance" then 5
  else 3

/-- Per-keyword weight of the professional scan. -/
def profWeight (kw : String) : ℕ :=
  if kw ∈ ["professional", "certified", "assessment", "installation"] then 3 else 1

/-- Per-keyword weight of the location scan. -/
def locWeight (kw : String) : ℕ :=
  if kw ∈ ["victoria", "braeside", "melbourne"] then 2 else 1

/-- Category-specific bonus block of calculate_quality_score (lines
261-284): an elif chain keyed on the lowered category, each adding 5 when a
matching indicator occurs in the lowered text. -/
def qualityCategoryBonus (textLower categoryLower : String) : ℕ :=
  if categoryLower ≠ "" then
    if containsStr categoryLower "fire safety" then
      (if ["as 1530", "fire rating", "class 1", "class 2",
           "fire performance"].any (containsStr textLower) then 5 else 0)
    else if containsStr categoryLower "thermal" then
      (if ["r-value", "thermal resistance", "r4", "r-4",
           "thermal bridging"].any (containsStr textLower) then 5 else 0)
    else if containsStr categoryLower "standards" ||
            containsStr categoryLower "compliance" then
      (if ["as ", "australian standard", "building code",
           "compliance"].any (containsStr textLower) then 5 else 0)
    else if containsStr categoryLower "moisture" then
      (if ["vapour barrier", "moisture barrier", "astm e96",
           "permeability"].any (containsStr textLower) then 5 else 0)
    else 0
  else 0

/-- Length-based completeness bonus of calculate_quality_score (lines
286-298).  Every branch, including the final else, awards at least 1. -/
def qualityLengthBonus (text : String) : ℕ :=
  if text.length > 2000 then 10
  else if text.length > 1000 then 8
  else if text.length > 500 then 6
  else if text.length > 200 then 4
  else if text.length > 100 then 2
  else 1

/-- Count of the strong indicators consulted by the 65-to-70 boost block
(lines 300-313). -/
def qualityStrongIndicators (textLower : String) : ℕ :=
  (if containsStr textLower "australian standard" then 1 else 0) +
  (if containsStr textLower "as 1530" then 1 else 0) +
  (if containsStr textLower "r-value" || containsStr textLower "thermal resistance"
   then 1 else 0) +
  (if containsStr textLower "professional installation" then 1 else 0) +
  (if containsStr textLower "polyurethane" && containsStr textLower "closed-cell"
   then 1 else 0)

/-- Model of calculate_quality_score: base 25, four independently capped
keyword sub-scores, category bonus, length bonus, the 65-to-70 boost, and a
final cap at 100.  Empty text returns 0. -/
def calculate_quality_score (text category : String) : ℕ :=
  if text = "" then 0
  else
    let tl := pyLower text
    let cl := pyLower category
    let score := 25 + min (sumHits tl qualityTechnical techWeight) 25
      + min (sumHits tl qualityStandards stdWeight) 20
      + min (sumHits tl qualityProfessional profWeight) 10
      + min (sumHits tl qualityLocations locWeight) 5
      + qualityCategoryBonus tl cl
      + qualityLengthBonus text
    let boosted :=
      if 65 ≤ score ∧ score < 70 ∧ 2 ≤ qualityStrongIndicators tl then score + 5
      else score
    min boosted 100

/-- Claim C10: for every non-empty text and any category,
calculate_quality_score returns a value between 26 and 100; the value 0 is
returned exactly when the text is empty, so no output falls strictly between
0 and 26. -/
theorem quality_score_range (text category : String) :
    (text = "" → calculate_quality_score text category = 0) ∧
    (text ≠ "" → 26 ≤ calculate_quality_score text category ∧
      calculate_quality_score text category ≤ 100) ∧
    (calculate_quality_score text category = 0 ↔ text = "") := by
  have hlb : 1 ≤ qualityLengthBonus text := by
    unfold qualityLengthBonus
    repeat' split
    all_goals omega
  have hmain : text ≠ "" → 26 ≤ calculate_quality_score text category ∧
      calculate_quality_score text category ≤ 100 := by
    intro h
    unfold calculate_quality_score
    rw [if_neg h]
    constructor
    · apply Nat.le_min.mpr
      constructor
      · split <;> omega
      · omega
    · exact Nat.min_le_right _ _
  have hzero : text = "" → calculate_quality_score text category = 0 := by
    intro h
    unfold calculate_quality_score
    rw [if_pos h]
  refine ⟨hzero, hmain, ?_⟩
  constructor
  · intro h0
    by_contra hne
    have := (hmain hne).1
    omega
  · exact hzero

/-- Witness for quality_score_range at the concrete non-empty text hi. -/
theorem quality_score_range_witness :
    "hi" ≠ "" ∧ 26 ≤ calculate_quality_score "hi" "" ∧
      calculate_quality_score "hi" "" ≤ 100 :=
  ⟨by decide, (quality_score_range "hi" "").2.1 (by decide)⟩

/-! ### Word-bounded regex engine for the normalize_text rule table.
Every pattern in the table of yetifoam_enhanced_final_streamlit_app.py
(lines 330-382) has the shape word-boundary, then a sequence of literal
characters and simple character-class quantifiers, then word-boundary.  The
engine below implements exactly that fragment with Python's greedy,
backtracking semantics, and re.sub's leftmost non-overlapping replacement
(replacement text is spliced in but never rescanned by the same sub call). -/

/-- Pattern elements: a literal character, an optional character class, a
greedy star over a class, a greedy plus over a class, and an exact repeat
count of a class. -/
inductive RItem where
  | lit : Char → RItem
  | optc : (Char → Bool) → RItem
  | many : (Char → Bool) → RItem
  | many1 : (Char → Bool) → RItem
  | rep : Nat → (Char → Bool) → RItem

/-- Word-character test lifted to the option used for boundary checks;
positions before the start or past the end count as non-word. -/
def isWordOpt : Option Char → Bool
  | none => false
  | some c => isWordChar c

/-- Python word boundary: the two sides disagree on word-character-ness. -/
def wordBoundary (a b : Option Char) : Bool :=
  isWordOpt a != isWordOpt b

/-- Length of the maximal leading run of characters satisfying p. -/
def leadRun (p : Char → Bool) : List Char → Nat
  | [] => 0
  | c :: cs => if p c then leadRun p cs + 1 else 0

/-- Backtracking helper: try consuming j characters for j = k, k-1, ..., 0
(greedy order), calling the continuation with the updated previous-character
context and the rest of the input. -/
def tryConsume (f : Option Char → List Char → Option Nat)
    (prev : Option Char) (cs : List Char) : Nat → Option Nat
  | 0 => f prev cs
  | j + 1 =>
    match f cs[j]? (cs.drop (j + 1)) with
    | some m => some (j + 1 + m)
    | none => tryConsume f prev cs j

/-- Match a pattern at the start of cs with Python's greedy backtracking.
prev is the character just before the match position.  The base case checks
the closing word boundary shared by every pattern in the rule table.
Returns the number of characters consumed. -/
def matchItems : List RItem → Option Char → List Char → Option Nat
  | [], prev, cs => if wordBoundary prev cs.head? then some 0 else none
  | .lit _ :: _, _, [] => none
  | .lit c :: rest, _, d :: cs =>
    if d = c then (matchItems rest (some d) cs).map (· + 1) else none
  | .optc p :: rest, prev, cs =>
    match cs with
    | [] => matchItems rest prev []
    | d :: cs' =>
      if p d then
        match matchItems rest (some d) cs' with
        | some m => some (m + 1)
        | none => matchItems rest prev cs
      else matchItems rest prev cs
  | .many p :: rest, prev, cs =>
    tryConsume (fun pv l => matchItems rest pv l) prev cs (leadRun p cs)
  | .many1 p :: rest, _, cs =>
    match cs with
    | [] => none
    | d :: cs' =>
      if p d then
        (tryConsume (fun pv l => matchItems rest pv l) (some d) cs'
          (leadRun p cs')).map (· + 1)
      else none
  | .rep n p :: rest, prev, cs =>
    if (cs.take n).length = n ∧ (cs.take n).all p then
      (matchItems rest (if n = 0 then prev else cs[n - 1]?) (cs.drop n)).map (· + n)
    else none

/-- Scan for leftmost matches of a word-bounded pattern, splicing in the
replacement; the replacement is not rescanned, and scanning resumes after
the matched span of the original input, exactly as re.sub does.  The fuel
argument only serves structural termination: every step consumes at least
one input character, so fuel equal to the input length never runs out (the
fuel-exhausted branch is unreachable when called through pySubRule). -/
def subAllGo (pat : List RItem) (repl : List Char) :
    Nat → Option Char → List Char → List Char
  | 0, _, l => l
  | _ + 1, _, [] => []
  | fuel + 1, prev, c :: cs =>
    if wordBoundary prev (some c) then
      match matchItems pat prev (c :: cs) with
      | some (m + 1) =>
        repl ++ subAllGo pat repl fuel (c :: cs)[m]? ((c :: cs).drop (m + 1))
      | _ => c :: subAllGo pat repl fuel (some c) cs
    else c :: subAllGo pat repl fuel (some c) cs

/-- Model of re.sub for one word-bounded rule of the table. -/
def pySubRule (pat : List RItem) (repl : List Char) (l : List Char) : List Char :=
  subAllGo pat repl l.length none l

/-- Literal character run of a pattern. -/
def lits (s : String) : List RItem :=
  s.toList.map RItem.lit

/-- Character class of the hyphen-or-underscore bracket in the first rule. -/
def isDashU (c : Char) : Bool :=
  c = '-' || c = '_'

/-- Rule table of normalize_text, in source (insertion) order.  Each entry
is the pattern between the two word boundaries and the expansion text. -/
def normalizeRules : List (List RItem × String) :=
  [ (lits "r" ++ [.optc isDashU] ++ lits "value" ++ [.optc (· = 's')],
      "thermal resistance r value"),
    (lits "thermal" ++ [.many1 isSpaceChar] ++ lits "resistance",
      "r value thermal resistance"),
    (lits "thermal" ++ [.many1 isSpaceChar] ++ lits "bridge",
      "thermal bridging cold bridge heat transfer"),
    (lits "cold" ++ [.many1 isSpaceChar] ++ lits "bridge",
      "thermal bridging cold bridge heat transfer"),
    (lits "energy" ++ [.many1 isSpaceChar] ++ lits "effic" ++ [.many isWordChar],
      "energy efficiency thermal performance"),
    (lits "thermal" ++ [.many1 isSpaceChar] ++ lits "conduct" ++ [.many isWordChar],
      "thermal conductivity thermal performance"),
    (lits "heat" ++ [.many1 isSpaceChar] ++ lits "transfer",
      "thermal bridging heat transfer"),
    (lits "as" ++ [.many isSpaceChar, .rep 4 isDigitChar, .optc (· = '.'),
       .many isDigitChar],
      "australian standard as compliance"),
    (lits "australian" ++ [.many1 isSpaceChar] ++ lits "standard",
      "as compliance australian standard"),
    (lits "building" ++ [.many1 isSpaceChar] ++ lits "code",
      "compliance building standards regulations"),
    (lits "compliance", "standards compliance regulations"),
    (lits "fire" ++ [.many1 isSpaceChar] ++ lits "rating",
      "fire safety as1530 fire performance"),
    (lits "fire" ++ [.many1 isSpaceChar] ++ lits "safety",
      "fire rating fire performance as1530"),
    (lits "spray" ++ [.many1 isSpaceChar] ++ lits "foam",
      "yetifoam polyurethane closed cell insulation"),
    (lits "polyurethane" ++ [.many1 isSpaceChar] ++ lits "foam",
      "yetifoam closed cell polyurethane insulation"),
    (lits "closed" ++ [.many1 isSpaceChar] ++ lits "cell",
      "closed cell polyurethane yetifoam rigid foam"),
    (lits "open" ++ [.many1 isSpaceChar] ++ lits "cell",
      "open cell foam spray insulation"),
    (lits "vapo" ++ [.optc (· = 'u')] ++ lits "r" ++ [.many1 isSpaceChar] ++
       lits "barrier",
      "moisture barrier vapour barrier air seal"),
    (lits "moisture" ++ [.many1 isSpaceChar] ++ lits "barrier",
      "vapour barrier moisture protection"),
    (lits "air" ++ [.many1 isSpaceChar] ++ lits "seal",
      "airtight vapour barrier air sealing"),
    (lits "sound" ++ [.many isSpaceChar] ++ lits "proof" ++ [.many isWordChar],
      "acoustic soundproofing sound dampening noise reduction"),
    (lits "acoustic", "soundproofing sound dampening acoustic performance"),
    (lits "noise" ++ [.many1 isSpaceChar] ++ lits "reduct" ++ [.many isWordChar],
      "soundproofing acoustic sound dampening"),
    (lits "instal" ++ [.many isWordChar], "installation application install"),
    (lits "applicat" ++ [.many isWordChar], "installation application install"),
    (lits "curing" ++ [.many1 isSpaceChar] ++ lits "time",
      "curing application installation"),
    (lits "substrate", "surface application substrate preparation"),
    (lits "vic", "victoria melbourne braeside"),
    (lits "tas", "tasmania service area regional"),
    (lits "melb" ++ [.many isWordChar], "melbourne victoria braeside"),
    (lits "braeside", "melbourne victoria service area"),
    (lits "regional", "victoria regional service areas"),
    (lits "diy", "do it yourself self install"),
    (lits "hvac", "heating ventilation air conditioning"),
    (lits "pvc", "polyvinyl chloride cable wiring"),
    (lits "eps", "expanded polystyrene foam insulation"),
    (lits "mould", "mold moisture condensation"),
    (lits "effic" ++ [.many isWordChar], "efficiency performance effective") ]

/-- Characters kept by the punctuation-removal regex of normalize_text:
word characters, whitespace, hyphen and period. -/
def keepPunct (c : Char) : Bool :=
  isWordChar c || isSpaceChar c || c = '-' || c = '.'

/-- Punctuation removal of normalize_text: every character outside word
characters, whitespace, hyphen and period becomes a space. -/
def punctToSpaceL (l : List Char) : List Char :=
  l.map (fun c => if keepPunct c then c else ' ')

/-- Model of normalize_text (lines 317-391): lower-case, punctuation to
space, whitespace collapse, the ordered rule table, then a final whitespace
collapse and strip.  Empty input returns the empty string. -/
def normalize_text (s : String) : String :=
  if s = "" then ""
  else
    let l0 := s.toList.map pyLowerChar
    let l1 := collapseWsL (punctToSpaceL l0)
    let l2 := normalizeRules.foldl (fun acc pr => pySubRule pr.1 pr.2.toList acc) l1
    String.mk (stripWsL (collapseWsL l2))

example : normalize_text "compliance" = "standards compliance regulations" := by decide

/-! ### Similarity fusion, from enhanced_fuzzy_search in
yetifoam_enhanced_final_streamlit_app.py (lines 393-506).  The four
fuzzywuzzy sub-scorers are external library calls; the fusion is
parametrised over them. -/

/-- Weight profile of the dynamic multi-scorer fusion. -/
structure Weights where
  tokenSetW : ℚ
  partialW : ℚ
  tokenSortW : ℚ
  ratioW : ℚ
  deriving DecidableEq

/-- External fuzzywuzzy scorers consumed by enhanced_fuzzy_search: the four
functions return similarity percentages for a pair of normalized strings. -/
structure FuzzAlgs where
  tokenSetR : String → String → ℚ
  partialR : String → String → ℚ
  tokenSortR : String → String → ℚ
  ratioR : String → String → ℚ

/-- Adaptive weighting of enhanced_fuzzy_search (lines 406-415), keyed only
on the token count of the normalized query. -/
def fusionWeights (queryLength : ℕ) : Weights :=
  if queryLength ≤ 2 then ⟨0.45, 0.25, 0.20, 0.10⟩
  else if queryLength ≤ 4 then ⟨0.40, 0.30, 0.20, 0.10⟩
  else ⟨0.30, 0.40, 0.20, 0.10⟩

/-- Weighted sum of the four sub-scores (lines 423-429). -/
def fuseBase (ts ps tss rs : ℚ) (queryLength : ℕ) : ℚ :=
  let w := fusionWeights queryLength
  ts * w.tokenSetW + ps * w.partialW + tss * w.tokenSortW + rs * w.ratioW

/-- Token count of the normalized query, len(query_norm.split()). -/
def queryLengthOf (query : String) : ℕ :=
  (pySplit (normalize_text query)).length

/-- Base score of enhanced_fuzzy_search: the dynamic weighted fusion of the
four sub-scorers on the normalized query and text. -/
def enhancedFuzzyBase (fz : FuzzAlgs) (query text : String) : ℚ :=
  let qn := normalize_text query
  let tn := normalize_text text
  fuseBase (fz.tokenSetR qn tn) (fz.partialR qn tn) (fz.tokenSortR qn tn)
    (fz.ratioR qn tn) (queryLengthOf query)

/-- Word set of a normalized string, set(s.split()) in the source. -/
def wordSet (s : String) : Finset String :=
  (pySplit s).toFinset

/-- Exact match bonus of enhanced_fuzzy_search (lines 431-442). -/
def exactBonusOf (qw tw : Finset String) (textNorm : String) : ℚ :=
  if (qw.filter (fun w => w.length > 3 ∧ containsStr textNorm w)).Nonempty then
    let r : ℚ := if qw.Nonempty then ((qw ∩ tw).card : ℚ) / qw.card else 0
    if r ≥ 0.9 then 10 else if r ≥ 0.7 then 5 else 0
  else 0

/-- Category bonus of enhanced_fuzzy_search (lines 444-454); the partial
fallback consults the external fuzz.partial_ratio scorer. -/
def categoryBonusOf (fz : FuzzAlgs) (qw : Finset String)
    (queryNorm categoryNorm : String) : ℚ :=
  if categoryNorm ≠ "" then
    let cw := wordSet categoryNorm
    let r : ℚ := if qw.Nonempty then ((qw ∩ cw).card : ℚ) / qw.card else 0
    if r ≥ 0.6 then 20
    else if fz.partialR queryNorm categoryNorm > 70 then 10
    else 0
  else 0

/-- Stop-word set of the keyword density scan (line 458). -/
def fuzzStopWords : Finset String :=
  (["the", "and", "or", "but", "in", "on", "at", "to", "for", "of", "with",
    "by", "is", "are", "was", "were", "a", "an"] : List String).toFinset

/-- Keyword density bonus of enhanced_fuzzy_search (lines 456-476). -/
def keywordBonusOf (qw tw : Finset String) : ℚ :=
  let mq := qw.filter (fun w => w ∉ fuzzStopWords ∧ w.length > 2)
  let mt := tw.filter (fun w => w ∉ fuzzStopWords ∧ w.length > 2)
  if mq.Nonempty then
    let density : ℚ := ((mq ∩ mt).card : ℚ) / mq.card
    if density ≥ 0.8 then 10
    else if density ≥ 0.6 then 8
    else if density ≥ 0.4 then 6
    else if density ≥ 0.2 then 4
    else 0
  else 0

/-- Raw score before the threshold penalty (line 479). -/
def rawScoreOf (fz : FuzzAlgs) (query text category : String) : ℚ :=
  let qn := normalize_text query
  let tn := normalize_text text
  let cn := normalize_text category
  let qw := wordSet qn
  let tw := wordSet tn
  enhancedFuzzyBase fz query text + exactBonusOf qw tw tn +
    categoryBonusOf fz qw qn cn + keywordBonusOf qw tw

/-- Threshold penalty of enhanced_fuzzy_search (lines 481-485): scores below
60 are scaled by 0.8, everything else is capped at 100. -/
def finalScoreOfRaw (raw : ℚ) : ℚ :=
  if raw < 60 then raw * 0.8 else min raw 100

/-- Final score of enhanced_fuzzy_search: 0 for an empty query or text,
otherwise the penalised raw score. -/
def enhanced_fuzzy_search (fz : FuzzAlgs) (query text category : String) : ℚ :=
  if query = "" ∨ text = "" then 0
  else finalScoreOfRaw (rawScoreOf fz query text category)

/-- Claim C3: below the 60 threshold the final score is the raw score scaled
by 0.8, strictly smaller for positive raw scores, and the penalty preserves
the order of any two penalised candidates; the search function returns
exactly this penalised score. -/
theorem penalty_below_sixty (r1 r2 : ℚ) (fz : FuzzAlgs) (q t c : String)
    (h1 : r1 < 60) (h2 : r2 < 60) (hq : q ≠ "") (ht : t ≠ "")
    (hr : rawScoreOf fz q t c < 60) :
    finalScoreOfRaw r1 = r1 * 0.8 ∧
    (0 < r1 → finalScoreOfRaw r1 < r1) ∧
    (finalScoreOfRaw r1 < finalScoreOfRaw r2 ↔ r1 < r2) ∧
    enhanced_fuzzy_search fz q t c = rawScoreOf fz q t c * 0.8 := by
  have e1 : finalScoreOfRaw r1 = r1 * 0.8 := if_pos h1
  have e2 : finalScoreOfRaw r2 = r2 * 0.8 := if_pos h2
  refine ⟨e1, ?_, ?_, ?_⟩
  · intro hpos
    rw [e1]
    nlinarith
  · rw [e1, e2]
    constructor
    · intro h
      nlinarith
    · intro h
      nlinarith
  · unfold enhanced_fuzzy_search
    rw [if_neg (by push_neg; exact ⟨hq, ht⟩)]
    exact if_pos hr

/-- Everywhere-zero stand-in for the external fuzzywuzzy scorers, used by
concrete witnesses. -/
def fzZero : FuzzAlgs :=
  ⟨fun _ _ => 0, fun _ _ => 0, fun _ _ => 0, fun _ _ => 0⟩

/-- Witness for penalty_below_sixty at raw scores 10 and 20 and the all-zero
scorer on the concrete query zz against text qq. -/
theorem penalty_below_sixty_witness :
    finalScoreOfRaw 10 = 10 * 0.8 ∧
    (0 < (10 : ℚ) → finalScoreOfRaw 10 < 10) ∧
    (finalScoreOfRaw 10 < finalScoreOfRaw 20 ↔ (10 : ℚ) < 20) ∧
    enhanced_fuzzy_search fzZero "zz" "qq" "" =
      rawScoreOf fzZero "zz" "qq" "" * 0.8 :=
  penalty_below_sixty 10 20 fzZero "zz" "qq" "" (by norm_num) (by norm_num)
    (by decide) (by decide) (by
      have hq : normalize_text "zz" = "zz" := by decide
      have ht : normalize_text "qq" = "qq" := by decide
      have hc : normalize_text "" = "" := by decide
      have h1 : ∀ n, fuseBase 0 0 0 0 n = 0 := by
        intro n; simp [fuseBase]
      have h2 : exactBonusOf (wordSet "zz") (wordSet "qq") "qq" = 0 := by decide
      have h3 : categoryBonusOf fzZero (wordSet "zz") "zz" "" = 0 := by
        simp [categoryBonusOf]
      have h4 : keywordBonusOf (wordSet "zz") (wordSet "qq") = 0 := by decide
      have hp1 : fzZero.tokenSetR "zz" "qq" = 0 := rfl
      have hp2 : fzZero.partialR "zz" "qq" = 0 := rfl
      have hp3 : fzZero.tokenSortR "zz" "qq" = 0 := rfl
      have hp4 : fzZero.ratioR "zz" "qq" = 0 := rfl
      simp only [rawScoreOf, enhancedFuzzyBase, hq, ht, hc, hp1, hp2, hp3, hp4,
        h1, h2, h3, h4]
      norm_num)

/-- Claim C4: the fusion base score is the weighted sum of the four
sub-measures, with the weight profile selected solely by the normalized
query's token count according to the three-bucket table, and it lies in
0 to 100 whenever the four sub-scores do. -/
theorem fusion_weighted_sum (fz : FuzzAlgs) (query text : String)
    (h1 : 0 ≤ fz.tokenSetR (normalize_text query) (normalize_text text))
    (h1' : fz.tokenSetR (normalize_text query) (normalize_text text) ≤ 100)
    (h2 : 0 ≤ fz.partialR (normalize_text query) (normalize_text text))
    (h2' : fz.partialR (normalize_text query) (normalize_text text) ≤ 100)
    (h3 : 0 ≤ fz.tokenSortR (normalize_text query) (normalize_text text))
    (h3' : fz.tokenSortR (normalize_text query) (normalize_text text) ≤ 100)
    (h4 : 0 ≤ fz.ratioR (normalize_text query) (normalize_text text))
    (h4' : fz.ratioR (normalize_text query) (normalize_text text) ≤ 100) :
    (0 ≤ enhancedFuzzyBase fz query text ∧ enhancedFuzzyBase fz query text ≤ 100) ∧
    enhancedFuzzyBase fz query text =
      fuseBase (fz.tokenSetR (normalize_text query) (normalize_text text))
        (fz.partialR (normalize_text query) (normalize_text text))
        (fz.tokenSortR (normalize_text query) (normalize_text text))
        (fz.ratioR (normalize_text query) (normalize_text text))
        (queryLengthOf query) ∧
    (∀ n : ℕ, n ≤ 2 → fusionWeights n = ⟨0.45, 0.25, 0.20, 0.10⟩) ∧
    (∀ n : ℕ, 3 ≤ n → n ≤ 4 → fusionWeights n = ⟨0.40, 0.30, 0.20, 0.10⟩) ∧
    (∀ n : ℕ, 5 ≤ n → fusionWeights n = ⟨0.30, 0.40, 0.20, 0.10⟩) := by
  have hw : ∀ n : ℕ,
      (fusionWeights n = ⟨0.45, 0.25, 0.20, 0.10⟩ ∨
       fusionWeights n = ⟨0.40, 0.30, 0.20, 0.10⟩ ∨
       fusionWeights n = ⟨0.30, 0.40, 0.20, 0.10⟩) := by
    intro n
    unfold fusionWeights
    split
    · left; rfl
    · split
      · right; left; rfl
      · right; right; rfl
  refine ⟨?_, rfl, ?_, ?_, ?_⟩
  · have hbase : enhancedFuzzyBase fz query text =
        fuseBase (fz.tokenSetR (normalize_text query) (normalize_text text))
          (fz.partialR (normalize_text query) (normalize_text text))
          (fz.tokenSortR (normalize_text query) (normalize_text text))
          (fz.ratioR (normalize_text query) (normalize_text text))
          (queryLengthOf query) := rfl
    rw [hbase]
    unfold fuseBase
    rcases hw (queryLengthOf query) with h | h | h <;> rw [h] <;>
      constructor <;> nlinarith
  · intro n hn
    unfold fusionWeights
    rw [if_pos hn]
  · intro n hn3 hn4
    unfold fusionWeights
    rw [if_neg (by omega), if_pos hn4]
  · intro n hn
    unfold fusionWeights
    rw [if_neg (by omega), if_neg (by omega)]

/-- Constant-50 stand-in for the external fuzzywuzzy scorers, used by the
fusion witness. -/
def fzFifty : FuzzAlgs :=
  ⟨fun _ _ => 50, fun _ _ => 50, fun _ _ => 50, fun _ _ => 50⟩

/-- Witness for fusion_weighted_sum on the one-token query cost against
text zz, with all four sub-scores equal to 50. -/
theorem fusion_weighted_sum_witness :
    0 ≤ enhancedFuzzyBase fzFifty "cost" "zz" ∧
      enhancedFuzzyBase fzFifty "cost" "zz" ≤ 100 :=
  (fusion_weighted_sum fzFifty "cost" "zz" (by norm_num [fzFifty])
    (by norm_num [fzFifty]) (by norm_num [fzFifty]) (by norm_num [fzFifty])
    (by norm_num [fzFifty]) (by norm_num [fzFifty]) (by norm_num [fzFifty])
    (by norm_num [fzFifty])).1

/-! ### Token-set similarity, from token_set_similarity in
yetifoam_simple_enhanced_tester.py (lines 176-197). -/

/-- Word set of a raw string after lowering and whitespace splitting,
set(s.lower().split()) in the source. -/
def tokenWordSet (s : String) : Finset String :=
  (pySplit (pyLower s)).toFinset

/-- Model of token_set_similarity: guards for empty strings and empty word
sets, then the Jaccard ratio of the two word sets times 100. -/
def token_set_similarity (s1 s2 : String) : ℚ :=
  if s1 = "" ∨ s2 = "" then 0
  else
    let w1 := tokenWordSet s1
    let w2 := tokenWordSet s2
    if w1 = ∅ ∨ w2 = ∅ then 0
    else
      let inter := w1 ∩ w2
      let uni := w1 ∪ w2
      if uni = ∅ then 0
      else ((inter.card : ℚ) / uni.card) * 100

/-- Jaccard specification written directly from the spec sentence: size of
the token-set intersection over the size of the union, times 100 (with the
Lean convention that division by a zero denominator yields 0). -/
def jaccardSpec (s1 s2 : String) : ℚ :=
  (((tokenWordSet s1 ∩ tokenWordSet s2).card : ℚ) /
    ((tokenWordSet s1 ∪ tokenWordSet s2).card : ℚ)) * 100

/-- Claim C6: token_set_similarity computes exactly the Jaccard ratio of the
token sets times 100, and is therefore invariant under any change of the
inputs that preserves their token sets (token order and duplicates do not
matter). -/
theorem token_set_similarity_jaccard (s1 s2 s1' s2' : String)
    (h1 : tokenWordSet s1' = tokenWordSet s1)
    (h2 : tokenWordSet s2' = tokenWordSet s2) :
    token_set_similarity s1 s2 = jaccardSpec s1 s2 ∧
    token_set_similarity s1' s2' = token_set_similarity s1 s2 := by
  have key : ∀ t1 t2 : String, token_set_similarity t1 t2 = jaccardSpec t1 t2 := by
    intro t1 t2
    unfold token_set_similarity jaccardSpec
    by_cases he : t1 = "" ∨ t2 = ""
    · rw [if_pos he]
      rcases he with h | h
      · subst h
        have : tokenWordSet "" = ∅ := by decide
        rw [this]
        simp
      · subst h
        have : tokenWordSet "" = ∅ := by decide
        rw [this]
        simp
    · rw [if_neg he]
      by_cases hw : tokenWordSet t1 = ∅ ∨ tokenWordSet t2 = ∅
      · rw [if_pos hw]
        rcases hw with h | h <;> rw [h] <;> simp
      · rw [if_neg hw]
        by_cases hu : tokenWordSet t1 ∪ tokenWordSet t2 = ∅
        · rw [if_pos hu, hu]
          simp
        · rw [if_neg hu]
  refine ⟨key s1 s2, ?_⟩
  rw [key s1' s2', key s1 s2]
  unfold jaccardSpec
  rw [h1, h2]

/-- Witness for token_set_similarity_jaccard: reordering and duplicating
tokens leaves the score unchanged. -/
theorem token_set_similarity_jaccard_witness :
    token_set_similarity "a b" "b c" = jaccardSpec "a b" "b c" ∧
    token_set_similarity "b a a" "c b c" = token_set_similarity "a b" "b c" :=
  token_set_similarity_jaccard "a b" "b c" "b a a" "c b c" (by decide) (by decide)

/-! ### Complete matcher engine, from find_best_match_from_all in
complete_semantic_matcher.py (lines 104-200).  The per-entry scorer
calculate_response_score blends fuzzywuzzy library calls, so the engine is
parametrised over it; none of the claims below depend on its values. -/

/-- Record fields of one corpus response used by the complete matcher. -/
structure RespItem where
  response : String
  original_query : String
  category : String
  source : String
  original_index : String
  deriving DecidableEq

/-- Result dictionary returned by find_best_match_from_all. -/
structure MatchOutcome where
  success : Bool
  response : String
  confidence : ℚ
  category : String
  match_type : String
  source_info : String
  adaptation : String
  deriving DecidableEq

/-- Fallback dictionary of _get_generic_response (lines 190-200). -/
def get_generic_response : MatchOutcome :=
  { success := true
    response := "Yetifoam is premium closed-cell spray foam insulation designed for Australian conditions. For specific information, contact us at https://yetifoam.com.au/contact/"
    confidence := 60
    category := "General"
    match_type := "generic_fallback"
    source_info := "fallback:generic"
    adaptation := "generic" }

/-- Model of Python str.replace for a non-empty literal pattern: leftmost
non-overlapping occurrences are replaced, left to right.  The fuel argument
only serves structural termination; fuel equal to the input length never
runs out because every step consumes at least one character. -/
def replaceAllGo (pat repl : List Char) : Nat → List Char → List Char
  | 0, l => l
  | _ + 1, [] => []
  | fuel + 1, c :: cs =>
    if pat.isPrefixOf (c :: cs) then
      repl ++ replaceAllGo pat repl fuel ((c :: cs).drop pat.length)
    else c :: replaceAllGo pat repl fuel cs

/-- Model of Python s.replace(pat, repl); the patterns appearing in the
source are non-empty literals, and the empty-pattern case is returned
unchanged. -/
def pyReplace (s pat repl : String) : String :=
  if pat = "" then s
  else String.mk (replaceAllGo pat.toList repl.toList s.toList.length s.toList)

/-- Model of _minimal_adapt_response (lines 170-188): three guarded
replacements, each consulting the lowered current response text. -/
def minimal_adapt_response (query response : String) : String :=
  let ql := pyLower query
  let r1 :=
    if (containsStr ql "dog" || containsStr ql "pet") &&
       (containsStr (pyLower response) "non-toxic" &&
        !containsStr (pyLower response) "pet") then
      pyReplace response "non-toxic" "non-toxic for pets"
    else response
  let r2 :=
    if (containsStr ql "cable" && containsStr (pyLower r1) "electrical") &&
       (containsStr (pyLower r1) "around" && !containsStr (pyLower r1) "cable") then
      pyReplace r1 "electrical" "electrical cables"
    else r1
  if (containsStr ql "pm2" || containsStr ql "per m2") &&
     containsStr (pyLower r2) "contact" then
    pyReplace r2 "contact" "contact us for per m2 pricing"
  else r2

/-- Stable insertion used to model Python list.sort with reverse True on the
score key: an element is placed after every earlier element whose score is
greater than or equal to its own, so equal scores keep insertion order. -/
def insertScoredDesc {α : Type} (x : α × ℚ) : List (α × ℚ) → List (α × ℚ)
  | [] => [x]
  | y :: ys => if y.2 < x.2 then x :: y :: ys else y :: insertScoredDesc x ys

/-- Stable descending sort by score, modelling
all_scores.sort(key=score, reverse=True). -/
def sortScoredDesc {α : Type} (l : List (α × ℚ)) : List (α × ℚ) :=
  l.foldl (fun acc x => insertScoredDesc x acc) []

/-- Tier classification of the best-scoring entry, lines 135-168 of
find_best_match_from_all: direct at 70 and above, adapted with a +10 boost
capped at 85 from 40, and below 40 the closest-available branch with the
prefix framing and the display floor max(score, 60). -/
def classify_best (query : String) (best : RespItem × ℚ) : MatchOutcome :=
  let item := best.1
  let s := best.2
  if s ≥ 70 then
    { success := true
      response := item.response
      confidence := s
      category := item.category
      match_type := "direct"
      source_info := item.source ++ ":" ++ item.original_index
      adaptation := "none" }
  else if s ≥ 40 then
    { success := true
      response := minimal_adapt_response query item.response
      confidence := min (s + 10) 85
      category := item.category
      match_type := "adapted"
      source_info := item.source ++ ":" ++ item.original_index
      adaptation := "minimal_tweaks" }
  else
    { success := true
      response := "Based on closest match: " ++ item.response
      confidence := max s 60
      category := item.category
      match_type := "closest_available"
      source_info := item.source ++ ":" ++ item.original_index
      adaptation := "prefixed" }

/-- Model of find_best_match_from_all: empty or whitespace-only queries get
the generic fallback; otherwise every response is scored, the list is sorted
by score descending, and the top entry is classified.  On an empty corpus
the source evaluates all_scores[0] on an empty list and raises IndexError,
modelled here as none. -/
def find_best_match_from_all (score : String → RespItem → ℚ)
    (responses : List RespItem) (query : String) : Option MatchOutcome :=
  if pyStrip query = "" then some get_generic_response
  else
    match sortScoredDesc (responses.map (fun r => (r, score query r))) with
    | [] => none
    | best :: _ => some (classify_best query best)

/-! ### Enhanced matcher engine, from find_best_response in
enhanced_matcher.py (lines 116-172).  Its scorer calculate_semantic_score is
also fuzzywuzzy-based and is a parameter here. -/

/-- Record fields of one corpus response used by find_best_response. -/
structure EnhEntry where
  response : String
  category : String
  deriving DecidableEq

/-- Result dictionary returned by find_best_response. -/
structure EnhOutcome where
  success : Bool
  response : String
  confidence : ℚ
  category : String
  match_type : String
  deriving DecidableEq

/-- Absolute fallback of find_best_response (lines 165-172). -/
def enhanced_generic_fallback : EnhOutcome :=
  { success := true
    response := "Yetifoam is premium closed-cell spray foam insulation designed for Australian conditions. For specific queries, contact us at https://yetifoam.com.au/contact/"
    confidence := 60
    category := "General"
    match_type := "generic" }

/-- Round-half-to-even on rationals, the exact-arithmetic model of Python's
round applied to one decimal place. -/
def roundHalfEven (q : ℚ) : ℤ :=
  let f := ⌊q⌋
  let r := q - f
  if r < 1 / 2 then f
  else if 1 / 2 < r then f + 1
  else if f % 2 = 0 then f else f + 1

/-- Model of round(x, 1). -/
def pyRound1 (q : ℚ) : ℚ :=
  (roundHalfEven (q * 10) : ℚ) / 10

/-- Filter-and-sort body of find_best_matches (lines 121-132): keep entries
whose raw score reaches min_score, attach the rounded score, sort stably by
it descending. -/
def sortCoreEnh (score : String → EnhEntry → ℚ) (responses : List EnhEntry)
    (query : String) (minScore : ℚ) : List (EnhEntry × ℚ) :=
  sortScoredDesc (responses.filterMap (fun r =>
    if score query r ≥ minScore then some (r, pyRound1 (score query r)) else none))

/-- Body of find_best_matches without the one-shot lowering retry. -/
def find_best_matches_noretry (score : String → EnhEntry → ℚ)
    (responses : List EnhEntry) (query : String) (minScore : ℚ)
    (maxResults : ℕ) : List (EnhEntry × ℚ) :=
  if pyStrip query = "" then []
  else (sortCoreEnh score responses query minScore).take maxResults

/-- Model of find_best_matches (lines 116-138): empty queries yield no
matches; if the filtered list is empty and min_score exceeds 50, retry once
at threshold 50 with a single result (the retry cannot recurse further
because its own threshold test 50 greater-than 50 fails). -/
def find_best_matches (score : String → EnhEntry → ℚ)
    (responses : List EnhEntry) (query : String) (minScore : ℚ)
    (maxResults : ℕ) : List (EnhEntry × ℚ) :=
  if pyStrip query = "" then []
  else
    let sorted := sortCoreEnh score responses query minScore
    if sorted = [] ∧ minScore > 50 then
      find_best_matches_noretry score responses query 50 1
    else sorted.take maxResults

/-- Threshold cascade of find_best_response (lines 142-163): the first
threshold producing a match wins; the confidence shown is floored at 60. -/
def tryThresholds (score : String → EnhEntry → ℚ) (responses : List EnhEntry)
    (query : String) : List ℚ → EnhOutcome
  | [] => enhanced_generic_fallback
  | m :: ms =>
    match find_best_matches score responses query m 1 with
    | [] => tryThresholds score responses query ms
    | (item, conf) :: _ =>
      { success := true
        response := item.response
        confidence := max conf 60
        category := item.category
        match_type :=
          if conf ≥ 60 then "excellent"
          else if conf ≥ 40 then "good"
          else "best_available" }

/-- Model of find_best_response: try thresholds 50, 40, 30, 20, then the
absolute fallback. -/
def find_best_response (score : String → EnhEntry → ℚ)
    (responses : List EnhEntry) (query : String) : EnhOutcome :=
  tryThresholds score responses query [50, 40, 30, 20]

/-- Claim C1 (code bug evaluation): on an empty corpus and the non-empty
query fire safety, find_best_match_from_all reaches all_scores[0] on an
empty list and raises IndexError (modelled as none) instead of returning the
generic fallback, contradicting its own never-fails docstring; the sibling
engine find_best_response does return its fixed generic fallback. -/
theorem empty_corpus_divergence :
    find_best_match_from_all (fun _ _ => 0) [] "fire safety" = none ∧
    find_best_response (fun _ _ => 0) [] "fire safety" =
      enhanced_generic_fallback := by
  constructor
  · unfold find_best_match_from_all
    rw [if_neg (by decide)]
    rfl
  · unfold find_best_response tryThresholds
    rfl

/-- Claim C2 (amended): for every scorer and every corpus, the empty-string
query short-circuits find_best_match_from_all to the fixed generic fallback:
success true, confidence 60, category General, match type generic_fallback.
The result is not built from any corpus entry. -/
theorem empty_query_generic_fallback (score : String → RespItem → ℚ)
    (responses : List RespItem) :
    find_best_match_from_all score responses "" = some get_generic_response ∧
    get_generic_response.confidence = 60 ∧
    get_generic_response.category = "General" ∧
    get_generic_response.match_type = "generic_fallback" := by
  refine ⟨?_, rfl, rfl, rfl⟩
  unfold find_best_match_from_all
  rw [if_pos (by decide)]

/-- Corpus entry used by the empty-query counterexample. -/
def entryCex2 : RespItem :=
  { response := "Foam answer"
    original_query := "orig"
    category := "Fire Safety"
    source := "src"
    original_index := "0" }

/-- Counterexample to claim C2 as stated: against the non-empty corpus
containing entryCex2, the empty-string query returns the generic fallback,
whose tier tag is generic_fallback rather than closest_available, whose text
is not the closest-match framing of the entry, and whose category is not the
entry's. -/
theorem empty_query_not_closest_available :
    find_best_match_from_all (fun _ _ => 0) [entryCex2] "" =
      some get_generic_response ∧
    get_generic_response.match_type ≠ "closest_available" ∧
    get_generic_response.response ≠
      "Based on closest match: " ++ entryCex2.response ∧
    get_generic_response.category ≠ entryCex2.category := by
  refine ⟨?_, by decide, by decide, by decide⟩
  unfold find_best_match_from_all
  rw [if_pos (by decide)]

/-- Claim C9: whenever find_best_match_from_all classifies its top result
into the closest-available branch, the reported confidence is exactly 60:
the branch precondition bounds the score below 40, so the display floor
max(score, 60) always evaluates to 60. -/
theorem closest_available_confidence_sixty (score : String → RespItem → ℚ)
    (responses : List RespItem) (query : String) (out : MatchOutcome)
    (h : find_best_match_from_all score responses query = some out)
    (hmt : out.match_type = "closest_available") :
    out.confidence = 60 := by
  unfold find_best_match_from_all at h
  by_cases hq : pyStrip query = ""
  · rw [if_pos hq] at h
    have hout : out = get_generic_response := by
      injection h with h'
      exact h'.symm
    rw [hout] at hmt
    exact absurd hmt (by decide)
  · rw [if_neg hq] at h
    rcases hs : sortScoredDesc (responses.map (fun r => (r, score query r))) with
      _ | ⟨best, rest⟩
    · rw [hs] at h
      exact absurd h (by simp)
    · rw [hs] at h
      have hout : out = classify_best query best := by
        injection h with h'
        exact h'.symm
      subst hout
      unfold classify_best at hmt ⊢
      by_cases h70 : best.2 ≥ 70
      · rw [if_pos h70] at hmt
        simp at hmt
      · by_cases h40 : best.2 ≥ 40
        · rw [if_neg h70, if_pos h40] at hmt
          simp at hmt
        · rw [if_neg h70, if_neg h40]
          show max best.2 60 = 60
          push_neg at h40
          exact max_eq_right (by linarith)

/-- Corpus entry used by the closest-available witness. -/
def entryCex9 : RespItem :=
  { response := "Generic foam info"
    original_query := "orig"
    category := "General Info"
    source := "src"
    original_index := "3" }

/-- Witness for closest_available_confidence_sixty: with the all-zero scorer
the single entry lands in the closest-available branch and the engine
reports confidence 60. -/
theorem closest_available_confidence_sixty_witness :
    find_best_match_from_all (fun _ _ => 0) [entryCex9] "hi" =
      some (classify_best "hi" (entryCex9, 0)) ∧
    (classify_best "hi" (entryCex9, 0)).match_type = "closest_available" ∧
    (classify_best "hi" (entryCex9, 0)).confidence = 60 := by
  have h : find_best_match_from_all (fun _ _ => 0) [entryCex9] "hi" =
      some (classify_best "hi" (entryCex9, 0)) := by
    unfold find_best_match_from_all
    rw [if_neg (by decide)]
    rfl
  have hmt : (classify_best "hi" (entryCex9, 0)).match_type =
      "closest_available" := by
    unfold classify_best
    rw [if_neg (by norm_num), if_neg (by norm_num)]
  exact ⟨h, hmt,
    closest_available_confidence_sixty (fun _ _ => 0) [entryCex9] "hi" _ h hmt⟩

/-! ### Duplicate consolidation, from integrate_csv_data in integrate_csv.py
(lines 21-77).  Only the answer strings drive the drop decision; the other
columns carried along by the source (category, subcategory, keywords, notes)
are metadata and are omitted from the model. -/

/-- Pairwise duplicate test of integrate_csv.py lines 37-44: both answers
must exceed 100 characters, the shorter must occur case-insensitively inside
the longer, AND the shorter's length must exceed 80 percent of the longer's
length. -/
def is_duplicate_pair (response finalAnswer : String) : Bool :=
  if response.length > 100 ∧ finalAnswer.length > 100 then
    let shorter := if response.length < finalAnswer.length then response else finalAnswer
    let longer := if response.length < finalAnswer.length then finalAnswer else response
    containsStr (pyLower longer) (pyLower shorter) &&
      decide ((shorter.length : ℚ) > (longer.length : ℚ) * 0.8)
  else false

/-- Duplicate check of a candidate against the earlier final dataset (lines
33-44); each stored answer is stripped before comparison, as in the source. -/
def dupAgainstFinal (resp : String) (finals : List String) : Bool :=
  finals.any (fun fa => is_duplicate_pair resp (pyStrip fa))

/-- Duplicate check against rows already accepted in this run (lines 47-51):
plain case-insensitive containment in either direction. -/
def dupAgainstNew (resp : String) (news : List String) : Bool :=
  news.any (fun na =>
    containsStr (pyLower na) (pyLower resp) || containsStr (pyLower resp) (pyLower na))

/-- Row loop of integrate_csv_data: each CSV answer is stripped, discarded
when shorter than 50 characters, dropped when the duplicate test fires
against the earlier final dataset or an already-accepted row, and otherwise
appended.  The earlier final dataset is never modified; the returned list is
the accepted new answers in arrival order. -/
def integrateLoop (finals : List String) : List String → List String → List String
  | news, [] => news
  | news, r :: rs =>
    let resp := pyStrip r
    if resp.length < 50 then integrateLoop finals news rs
    else if dupAgainstFinal resp finals then integrateLoop finals news rs
    else if dupAgainstNew resp news then integrateLoop finals news rs
    else integrateLoop finals (news ++ [resp]) rs

/-- Claim C7 (amended): the later entry is dropped when the conjunctive test
holds against some earlier final entry: both stripped answers exceed 100
characters, the later one is shorter, it occurs case-insensitively inside
the earlier one, and its length exceeds 80 percent of the earlier one's
length.  Earlier entries are untouched by the loop. -/
theorem consolidation_drops_conjunctive (finals news : List String)
    (r : String) (rs : List String) (f : String)
    (hf : f ∈ finals)
    (h1 : (pyStrip r).length > 100) (h2 : (pyStrip f).length > 100)
    (hlen : (pyStrip r).length < (pyStrip f).length)
    (hsub : containsStr (pyLower (pyStrip f)) (pyLower (pyStrip r)) = true)
    (hratio : ((pyStrip r).length : ℚ) > ((pyStrip f).length : ℚ) * 0.8) :
    integrateLoop finals news (r :: rs) = integrateLoop finals news rs := by
  have hpair : is_duplicate_pair (pyStrip r) (pyStrip f) = true := by
    unfold is_duplicate_pair
    rw [if_pos ⟨h1, h2⟩]
    rw [if_pos hlen, if_pos hlen]
    rw [Bool.and_eq_true]
    exact ⟨hsub, decide_eq_true hratio⟩
  have hdup : dupAgainstFinal (pyStrip r) finals = true := by
    unfold dupAgainstFinal
    rw [List.any_eq_true]
    exact ⟨f, hf, hpair⟩
  show (let resp := pyStrip r
    if resp.length < 50 then integrateLoop finals news rs
    else if dupAgainstFinal resp finals then integrateLoop finals news rs
    else if dupAgainstNew resp news then integrateLoop finals news rs
    else integrateLoop finals (news ++ [resp]) rs) = integrateLoop finals news rs
  by_cases hshort : (pyStrip r).length < 50
  · simp only [if_pos hshort]
  · simp only [if_neg hshort, hdup, if_pos trivial, if_true]

/-- Later CSV answer of the C7 counterexample: 101 letters a. -/
def cexAnswer101 : String := String.mk (List.replicate 101 'a')

/-- Earlier final answer of the C7 counterexample: 127 letters a. -/
def cexAnswer127 : String := String.mk (List.replicate 127 'a')

/-- Counterexample to claim C7 as stated: an answer of 101 characters that
is a case-insensitive substring of an earlier 127-character answer is KEPT,
because the source additionally requires the shorter length to exceed 80
percent of the longer length; substring containment alone does not drop the
later entry. -/
theorem consolidation_substring_not_dropped :
    integrateLoop [cexAnswer127] [] [cexAnswer101] = [cexAnswer101] ∧
    containsStr (pyLower cexAnswer127) (pyLower cexAnswer101) = true ∧
    cexAnswer101.length > 100 ∧ cexAnswer127.length > 100 := by
  have hstrip : pyStrip cexAnswer101 = cexAnswer101 := by decide
  have hratio :
      ¬ (((pyStrip cexAnswer101).length : ℚ) >
        ((pyStrip cexAnswer127).length : ℚ) * 0.8) := by
    have h1 : (pyStrip cexAnswer101).length = 101 := by decide
    have h2 : (pyStrip cexAnswer127).length = 127 := by decide
    rw [h1, h2]
    norm_num
  have hpair : is_duplicate_pair (pyStrip cexAnswer101) (pyStrip cexAnswer127) =
      false := by
    unfold is_duplicate_pair
    rw [if_pos ⟨by decide, by decide⟩]
    rw [if_pos (by decide), if_pos (by decide)]
    show (containsStr (pyLower (pyStrip cexAnswer127)) (pyLower (pyStrip cexAnswer101)) &&
      decide (((pyStrip cexAnswer101).length : ℚ) >
        ((pyStrip cexAnswer127).length : ℚ) * 0.8)) = false
    rw [decide_eq_false hratio, Bool.and_false]
  have hdup : dupAgainstFinal (pyStrip cexAnswer101) [cexAnswer127] = false := by
    unfold dupAgainstFinal
    simp [hpair]
  have hnew : dupAgainstNew (pyStrip cexAnswer101) [] = false := rfl
  have h50 : ¬ (pyStrip cexAnswer101).length < 50 := by decide
  refine ⟨?_, by decide, by decide, by decide⟩
  calc integrateLoop [cexAnswer127] [] [cexAnswer101]
      = integrateLoop [cexAnswer127] ([] ++ [pyStrip cexAnswer101]) [] := by
        simp only [integrateLoop, if_neg h50, hdup, hnew, Bool.false_eq_true,
          if_false]
    _ = [cexAnswer101] := by simp [integrateLoop, hstrip]

/-- Witness for consolidation_drops_conjunctive: a 110-character answer
contained in an earlier 120-character answer, with 110 above 80 percent of
120, is dropped by the loop. -/
theorem consolidation_drops_conjunctive_witness :
    integrateLoop [String.mk (List.replicate 120 'a')] []
        [String.mk (List.replicate 110 'a')] =
      integrateLoop [String.mk (List.replicate 120 'a')] [] [] := by
  refine consolidation_drops_conjunctive _ _ _ _
    (String.mk (List.replicate 120 'a')) (by decide) (by decide) (by decide)
    (by decide) (by decide) ?_
  have h1 : (pyStrip (String.mk (List.replicate 110 'a'))).length = 110 := by decide
  have h2 : (pyStrip (String.mk (List.replicate 120 'a'))).length = 120 := by decide
  rw [h1, h2]
  norm_num

/-- Counterexample to claim C8 as stated: the input r-value is matched by
the first rewrite rule, but the normalized output does not contain the
original matched token r-value; re.sub replaces the match with the expansion
instead of keeping it. -/
theorem normalize_drops_matched_token :
    normalize_text "r-value" = "r value thermal resistance r value" ∧
    containsStr (normalize_text "r-value") "r-value" = false := by
  constructor
  · decide
  · decide

/-- Claim C8 (amended): a rewrite replaces the matched token with the
expansion text, so the original token survives normalization only when the
rule's expansion itself contains it, which holds for rules such as
compliance and closed cell but not in general. -/
theorem normalize_keeps_token_when_expansion_contains_it :
    containsStr (normalize_text "compliance") "compliance" = true ∧
    containsStr (normalize_text "closed cell") "closed cell" = true := by
  constructor
  · decide
  · decide

/-- Counterexample to claim C5 as stated: the normalizer is not idempotent.
Normalizing compliance yields standards compliance regulations, whose
compliance token is expanded again by a second normalization pass. -/
theorem normalize_not_idempotent :
    normalize_text (normalize_text "compliance") ≠ normalize_text "compliance" := by
  decide

/-! ### Claim C5.  The full normalizer is not idempotent (theorem
normalize_not_idempotent above); what does hold is idempotence of its
canonicalization stage, normalize_text with the rule table removed. -/

/-- Character pipeline of the canonicalization stage of normalize_text:
lower-case, punctuation to space, the pre-rule whitespace collapse, then the
post-rule whitespace collapse and strip, with the rule-table fold omitted. -/
def canonCore (l : List Char) : List Char :=
  stripWsL (collapseWsL (collapseWsL (punctToSpaceL (l.map pyLowerChar))))

/-- Canonicalization stage of normalize_text: its exact pipeline with an
empty rule table. -/
def canonicalize (s : String) : String :=
  if s = "" then "" else String.mk (canonCore s.toList)

theorem toNat_ofNat_of_lt {n : ℕ} (h : n < 55296) : (Char.ofNat n).toNat = n := by
  have hv : n.isValidChar := Or.inl h
  rw [Char.ofNat, dif_pos hv]
  rfl

theorem pyLowerChar_idem (c : Char) : pyLowerChar (pyLowerChar c) = pyLowerChar c := by
  unfold pyLowerChar
  by_cases h : 65 ≤ c.toNat ∧ c.toNat ≤ 90
  · rw [if_pos h]
    have ht : (Char.ofNat (c.toNat + 32)).toNat = c.toNat + 32 :=
      toNat_ofNat_of_lt (by omega)
    rw [if_neg (by rw [ht]; omega)]
  · rw [if_neg h, if_neg h]

theorem map_eq_self_of_mem {α : Type} {f : α → α} :
    ∀ {l : List α}, (∀ c ∈ l, f c = c) → l.map f = l
  | [], _ => rfl
  | c :: cs, h => by
    rw [List.map_cons, h c (by simp),
      map_eq_self_of_mem (fun d hd => h d (by simp [hd]))]

theorem mem_punctToSpaceL {c : Char} {l : List Char} (h : c ∈ punctToSpaceL l) :
    c = ' ' ∨ c ∈ l := by
  obtain ⟨d, hd, he⟩ := List.mem_map.mp h
  by_cases hk : keepPunct d
  · right
    rw [if_pos hk] at he
    rwa [← he]
  · left
    rw [if_neg hk] at he
    exact he.symm

theorem mem_collapseWsGo :
    ∀ (b : Bool) (l : List Char) (c : Char), c ∈ collapseWsGo b l → c = ' ' ∨ c ∈ l
  | true, [], _, h => by cases h
  | false, [], _, h => by cases h
  | true, d :: ds, c, h => by
    unfold collapseWsGo at h
    by_cases hd : isSpaceChar d
    · rw [if_pos hd] at h
      rcases mem_collapseWsGo true ds c h with h' | h'
      · exact Or.inl h'
      · exact Or.inr (by simp [h'])
    · rw [if_neg hd] at h
      rcases List.mem_cons.mp h with h' | h'
      · exact Or.inr (by simp [h'])
      · rcases mem_collapseWsGo false ds c h' with h'' | h''
        · exact Or.inl h''
        · exact Or.inr (by simp [h''])
  | false, d :: ds, c, h => by
    unfold collapseWsGo at h
    by_cases hd : isSpaceChar d
    · rw [if_pos hd] at h
      rcases List.mem_cons.mp h with h' | h'
      · exact Or.inl h'
      · rcases mem_collapseWsGo true ds c h' with h'' | h''
        · exact Or.inl h''
        · exact Or.inr (by simp [h''])
    · rw [if_neg hd] at h
      rcases List.mem_cons.mp h with h' | h'
      · exact Or.inr (by simp [h'])
      · rcases mem_collapseWsGo false ds c h' with h'' | h''
        · exact Or.inl h''
        · exact Or.inr (by simp [h''])

theorem mem_stripWsL {c : Char} {l : List Char} (h : c ∈ stripWsL l) : c ∈ l := by
  unfold stripWsL dropTrailingWsL at h
  have h1 := List.mem_reverse.mp h
  have h2 := (List.dropWhile_sublist _).subset h1
  have h3 := List.mem_reverse.mp h2
  exact (List.dropWhile_sublist _).subset h3

/-- Adjacent characters of a collapse-normal list are never both whitespace. -/
def noTwoSpaces (a b : Char) : Prop :=
  ¬(isSpaceChar a = true ∧ isSpaceChar b = true)

theorem collapseWsGo_true_head :
    ∀ (l : List Char) (c : Char), (collapseWsGo true l).head? = some c →
      isSpaceChar c = false
  | [], c, h => by simp [collapseWsGo] at h
  | d :: ds, c, h => by
    unfold collapseWsGo at h
    by_cases hd : isSpaceChar d
    · rw [if_pos hd] at h
      exact collapseWsGo_true_head ds c h
    · rw [if_neg hd] at h
      simp only [List.head?_cons, Option.some.injEq] at h
      rw [← h]
      simpa using hd

theorem collapseWsGo_chain :
    ∀ (b : Bool) (l : List Char), List.Chain' noTwoSpaces (collapseWsGo b l)
  | true, [] => List.chain'_nil
  | false, [] => List.chain'_nil
  | true, d :: ds => by
    unfold collapseWsGo
    by_cases hd : isSpaceChar d
    · rw [if_pos hd]
      exact collapseWsGo_chain true ds
    · rw [if_neg hd]
      refine List.chain'_cons'.mpr ⟨?_, collapseWsGo_chain false ds⟩
      intro y _ hcon
      exact absurd hcon.1 (by simpa using hd)
  | false, d :: ds => by
    unfold collapseWsGo
    by_cases hd : isSpaceChar d
    · rw [if_pos hd]
      refine List.chain'_cons'.mpr ⟨?_, collapseWsGo_chain true ds⟩
      intro y hy hcon
      have := collapseWsGo_true_head ds y hy
      rw [this] at hcon
      exact absurd hcon.2 (by simp)
    · rw [if_neg hd]
      refine List.chain'_cons'.mpr ⟨?_, collapseWsGo_chain false ds⟩
      intro y _ hcon
      exact absurd hcon.1 (by simpa using hd)

theorem collapseWsGo_allWs :
    ∀ (b : Bool) (l : List Char) (c : Char), c ∈ collapseWsGo b l →
      isSpaceChar c = true → c = ' '
  | true, [], _, h, _ => by cases h
  | false, [], _, h, _ => by cases h
  | true, d :: ds, c, h, hs => by
    unfold collapseWsGo at h
    by_cases hd : isSpaceChar d
    · rw [if_pos hd] at h
      exact collapseWsGo_allWs true ds c h hs
    · rw [if_neg hd] at h
      rcases List.mem_cons.mp h with h' | h'
      · rw [h'] at hs
        exact absurd hs (by simpa using hd)
      · exact collapseWsGo_allWs false ds c h' hs
  | false, d :: ds, c, h, hs => by
    unfold collapseWsGo at h
    by_cases hd : isSpaceChar d
    · rw [if_pos hd] at h
      rcases List.mem_cons.mp h with h' | h'
      · exact h'
      · exact collapseWsGo_allWs true ds c h' hs
    · rw [if_neg hd] at h
      rcases List.mem_cons.mp h with h' | h'
      · rw [h'] at hs
        exact absurd hs (by simpa using hd)
      · exact collapseWsGo_allWs false ds c h' hs

theorem collapseWsGo_true_eq_false {l : List Char}
    (h : ∀ c, l.head? = some c → isSpaceChar c = false) :
    collapseWsGo true l = collapseWsGo false l := by
  cases l with
  | nil => rfl
  | cons d ds =>
    have hd := h d (by simp)
    unfold collapseWsGo
    rw [if_neg (by simp [hd]), if_neg (by simp [hd])]

theorem collapseWsL_fix :
    ∀ {l : List Char}, (∀ c ∈ l, isSpaceChar c = true → c = ' ') →
      List.Chain' noTwoSpaces l → collapseWsL l = l
  | [], _, _ => rfl
  | d :: ds, h1, h2 => by
    have hmem : ∀ c ∈ ds, isSpaceChar c = true → c = ' ' :=
      fun c hc => h1 c (by simp [hc])
    have htail : List.Chain' noTwoSpaces ds := (List.chain'_cons'.mp h2).2
    by_cases hd : isSpaceChar d
    · have hd' : d = ' ' := h1 d (by simp) hd
      show collapseWsGo false (d :: ds) = d :: ds
      unfold collapseWsGo
      rw [if_pos hd]
      have hds : collapseWsGo true ds = collapseWsGo false ds := by
        apply collapseWsGo_true_eq_false
        intro c hc
        have hR := (List.chain'_cons'.mp h2).1 c hc
        by_contra hcs
        exact hR ⟨hd, by simpa using hcs⟩
      have hfix : collapseWsGo false ds = ds := collapseWsL_fix hmem htail
      rw [hds, hfix, hd']
    · show collapseWsGo false (d :: ds) = d :: ds
      unfold collapseWsGo
      have hfix : collapseWsGo false ds = ds := collapseWsL_fix hmem htail
      rw [if_neg hd, hfix]

theorem dropWhile_dropWhile (p : Char → Bool) (l : List Char) :
    (l.dropWhile p).dropWhile p = l.dropWhile p := by
  cases h : l.dropWhile p with
  | nil => simp
  | cons a t =>
    have ha : p a = false := by
      have h2 := List.head?_dropWhile_not p l
      rw [h] at h2
      simpa using h2
    rw [List.dropWhile_cons_of_neg (by simp [ha])]

theorem dropTrailingWsL_prefix (l : List Char) : dropTrailingWsL l <+: l := by
  unfold dropTrailingWsL
  have h := List.reverse_prefix.mpr (List.dropWhile_suffix (l := l.reverse) isSpaceChar)
  rwa [List.reverse_reverse] at h

theorem dropTrailingWsL_idem (l : List Char) :
    dropTrailingWsL (dropTrailingWsL l) = dropTrailingWsL l := by
  unfold dropTrailingWsL
  rw [List.reverse_reverse, dropWhile_dropWhile]

theorem head?_of_prefix {l₁ l₂ : List Char} (h : l₁ <+: l₂) (hne : l₁ ≠ []) :
    l₁.head? = l₂.head? := by
  obtain ⟨r, rfl⟩ := h
  cases l₁ with
  | nil => exact absurd rfl hne
  | cons a t => simp

theorem stripWsL_idem (l : List Char) : stripWsL (stripWsL l) = stripWsL l := by
  unfold stripWsL
  have hpre : dropTrailingWsL (l.dropWhile isSpaceChar) <+: l.dropWhile isSpaceChar :=
    dropTrailingWsL_prefix _
  have hdw : (dropTrailingWsL (l.dropWhile isSpaceChar)).dropWhile isSpaceChar =
      dropTrailingWsL (l.dropWhile isSpaceChar) := by
    cases hcase : dropTrailingWsL (l.dropWhile isSpaceChar) with
    | nil => simp
    | cons a t =>
      have hh : (dropTrailingWsL (l.dropWhile isSpaceChar)).head? =
          (l.dropWhile isSpaceChar).head? :=
        head?_of_prefix hpre (by rw [hcase]; simp)
      rw [hcase] at hh
      have ha : isSpaceChar a = false := by
        have h2 := List.head?_dropWhile_not isSpaceChar l
        rw [← hh] at h2
        simpa using h2
      rw [List.dropWhile_cons_of_neg (by simp [ha])]
  rw [hdw, dropTrailingWsL_idem]

theorem chain'_stripWsL {l : List Char} (h : List.Chain' noTwoSpaces l) :
    List.Chain' noTwoSpaces (stripWsL l) := by
  have hsymm : ∀ a b : Char, noTwoSpaces a b → flip noTwoSpaces a b :=
    fun a b hab ⟨x, y⟩ => hab ⟨y, x⟩
  have hsymm' : ∀ a b : Char, flip noTwoSpaces a b → noTwoSpaces a b :=
    fun a b hab ⟨x, y⟩ => hab ⟨y, x⟩
  unfold stripWsL dropTrailingWsL
  have h1 : List.Chain' noTwoSpaces (l.dropWhile isSpaceChar) :=
    h.suffix (List.dropWhile_suffix _)
  have h2 : List.Chain' noTwoSpaces (l.dropWhile isSpaceChar).reverse :=
    List.chain'_reverse.mpr (h1.imp hsymm)
  have h3 : List.Chain' noTwoSpaces
      ((l.dropWhile isSpaceChar).reverse.dropWhile isSpaceChar) :=
    h2.suffix (List.dropWhile_suffix _)
  exact List.chain'_reverse.mpr (h3.imp hsymm)

theorem canonCore_fix (l : List Char) : canonCore (canonCore l) = canonCore l := by
  have hlow : ∀ c ∈ canonCore l, pyLowerChar c = c := by
    intro c hc
    have hc1 := mem_stripWsL hc
    rcases mem_collapseWsGo false _ c hc1 with h' | hc2
    · rw [h']; decide
    · rcases mem_collapseWsGo false _ c hc2 with h' | hc3
      · rw [h']; decide
      · rcases mem_punctToSpaceL hc3 with h' | hc4
        · rw [h']; decide
        · obtain ⟨d, _, rfl⟩ := List.mem_map.mp hc4
          exact pyLowerChar_idem d
  have hkeep : ∀ c ∈ canonCore l, keepPunct c = true := by
    intro c hc
    have hc1 := mem_stripWsL hc
    rcases mem_collapseWsGo false _ c hc1 with h' | hc2
    · rw [h']; decide
    · rcases mem_collapseWsGo false _ c hc2 with h' | hc3
      · rw [h']; decide
      · obtain ⟨d, _, he⟩ := List.mem_map.mp hc3
        by_cases hk : keepPunct d
        · rw [if_pos hk] at he
          rwa [← he]
        · rw [if_neg hk] at he
          rw [← he]
          decide
  have hallWs : ∀ c ∈ canonCore l, isSpaceChar c = true → c = ' ' := by
    intro c hc hs
    exact collapseWsGo_allWs false _ c (mem_stripWsL hc) hs
  have hchain : List.Chain' noTwoSpaces (canonCore l) :=
    chain'_stripWsL (collapseWsGo_chain false _)
  show stripWsL (collapseWsL (collapseWsL (punctToSpaceL
    ((canonCore l).map pyLowerChar)))) = canonCore l
  rw [map_eq_self_of_mem hlow]
  rw [show punctToSpaceL (canonCore l) = canonCore l from
    map_eq_self_of_mem (fun c hc => by rw [if_pos (hkeep c hc)])]
  rw [collapseWsL_fix hallWs hchain, collapseWsL_fix hallWs hchain]
  exact stripWsL_idem _

/-- Claim C5 (amended): the canonicalization stage of normalize_text, its
exact pipeline with the synonym rule table removed, is idempotent; the full
normalizer is not, because expansions re-trigger their own patterns. -/
theorem canonicalize_idempotent (s : String) :
    canonicalize (canonicalize s) = canonicalize s := by
  by_cases hs : s = ""
  · rw [hs]
    rfl
  · by_cases hz : canonicalize s = ""
    · rw [hz]
      rfl
    · have hcs : canonicalize s = String.mk (canonCore s.toList) := by
        unfold canonicalize
        rw [if_neg hs]
      conv_lhs => rw [canonicalize, if_neg hz, hcs]
      rw [hcs]
      show String.mk (canonCore (canonCore s.toList)) = String.mk (canonCore s.toList)
      rw [canonCore_fix]
